import Mathlib

/-!
# Verification of the houdini document-transform pipeline

Shallow embedding of the pagination transform (`paginate`), the list
transform (`addListFragments` / `connectionSelection`) and the runtime
scalar walker (`marshalSelection` / `marshalInputs` / `unmarshalSelection`),
together with proofs of the spec's claims about them.
-/

namespace Houdini

/-! ## Pagination flags (src/unnamed/part_000, `paginate`)

`PaginationFlags` maps each of the six pagination argument names to an
`enabled` bit, a type tag and an optional default value, mirroring the
`flags` object initialised at the top of `paginate` and updated when the
`@paginate` directive is found on a field. -/

inductive ArgKind where
  | intArg
  | stringArg
deriving DecidableEq, Repr

structure FlagSpec where
  enabled : Bool
  type : ArgKind
  defaultValue : Option String := none
deriving DecidableEq, Repr

structure PaginationFlags where
  first : FlagSpec
  after : FlagSpec
  last : FlagSpec
  before : FlagSpec
  limit : FlagSpec
  offset : FlagSpec
deriving DecidableEq, Repr

/-- The `flags` object as initialised per document in `paginate`. -/
def initialFlags : PaginationFlags :=
  { first := { enabled := false, type := .intArg }
    after := { enabled := false, type := .stringArg }
    last := { enabled := false, type := .intArg }
    before := { enabled := false, type := .stringArg }
    limit := { enabled := false, type := .intArg }
    offset := { enabled := false, type := .intArg } }

/-- The flag update performed in the `Field` visitor of `paginate`
(part_000 lines 99-120): `args` is the set of argument names declared on
the field's schema definition, `passed` the set of argument names present
at the call site. -/
def computeFlags (args passed : List String) (flags : PaginationFlags) :
    PaginationFlags :=
  let specifiedForwards := passed.contains "first"
  let specifiedBackwards := passed.contains "last"
  let forwardPagination :=
    !specifiedBackwards && args.contains "first" && args.contains "after"
  let backwardsPagination :=
    !specifiedForwards && args.contains "last" && args.contains "before"
  let offsetPagination :=
    !forwardPagination && !backwardsPagination &&
      args.contains "offset" && args.contains "limit"
  { flags with
    first := { flags.first with enabled := forwardPagination }
    after := { flags.after with enabled := forwardPagination }
    last := { flags.last with enabled := backwardsPagination }
    before := { flags.before with enabled := backwardsPagination }
    offset := { flags.offset with enabled := offsetPagination }
    limit := { flags.limit with enabled := offsetPagination } }

inductive RefetchUpdateMode where
  | append
  | prepend
deriving DecidableEq, Repr

inductive RefetchMethod where
  | cursor
  | offset
deriving DecidableEq, Repr

structure Refetch where
  update : RefetchUpdateMode
  path : List String
  method : RefetchMethod
  pageSize : Option String
  start : Option String
  embedded : Bool
  targetType : String
deriving DecidableEq, Repr

/-- The refetch descriptor recorded on a paginated document
(part_000 lines 159-163 and 299-318): `update` is chosen from
`flags.last.enabled`, `method` from the cursor flags, and
`pageSize`/`start` from the default values of the enabled pair. -/
def paginateRefetch (flags : PaginationFlags) (paginationPath : List String)
    (nodeQuery : Bool) (targetType : String) : Refetch :=
  let refetchUpdate :=
    if flags.last.enabled then RefetchUpdateMode.prepend
    else RefetchUpdateMode.append
  let base : Refetch :=
    { update := refetchUpdate
      path := paginationPath
      method :=
        if flags.first.enabled || flags.last.enabled then RefetchMethod.cursor
        else RefetchMethod.offset
      pageSize := some "0"
      start := none
      embedded := nodeQuery
      targetType := targetType }
  if flags.first.enabled then
    { base with pageSize := flags.first.defaultValue, start := flags.after.defaultValue }
  else if flags.last.enabled then
    { base with pageSize := flags.last.defaultValue, start := flags.before.defaultValue }
  else if flags.limit.enabled then
    { base with pageSize := flags.limit.defaultValue, start := flags.offset.defaultValue }
  else base

/-! ## Runtime scalar walker (src/src/runtime/scalars.ts)

JavaScript runtime values as seen by the walker.  `atom` models a
primitive (number/boolean) value: it is neither `null` nor an array, and
`Object.entries` applied to such a primitive returns the empty list, so
the walker's object branch turns it into the empty object.  `Except`
models a thrown exception: `"TypeError"` for the crash that JavaScript
raises when `selection[fieldName]` is destructured while the field is
absent from the selection, and the explicit `throw new Error(...)` calls
for missing scalar conversion functions. -/

inductive JsValue where
  | null
  | atom (s : String)
  | arr (elems : List JsValue)
  | obj (fields : List (String × JsValue))

def JsValue.isArr : JsValue → Bool
  | .arr _ => true
  | _ => false

/-- One entry of `ConfigFile.scalars`: the optional `marshal` and
`unmarshal` conversion functions of a custom scalar. -/
structure ScalarSpec where
  marshal : Option (JsValue → JsValue)
  unmarshal : Option (JsValue → JsValue)

/-- The runtime configuration consumed by the walker.  An absent
`scalars` key behaves exactly like an empty table under the optional
chaining `config.scalars?.[type]`, so the table is modelled as a plain
association list. -/
structure ConfigFile where
  scalars : List (String × ScalarSpec)

/-- First-match association-list lookup, modelling a JavaScript object
read `table[key]` (`none` is `undefined`). -/
def lookupAssoc {α : Type _} (l : List (String × α)) (key : String) : Option α :=
  (l.find? (fun p => p.1 == key)).map Prod.snd

def lookupScalar (config : ConfigFile) (t : String) : Option ScalarSpec :=
  lookupAssoc config.scalars t

/-- One node of a compiled `Selection` tree: the optional `type` name and
the optional nested `fields` sub-selection, keyed by response alias. -/
inductive SelNode where
  | mk (type : Option String) (fields : Option (List (String × SelNode)))

abbrev Selection := List (String × SelNode)

def SelNode.type : SelNode → Option String
  | .mk t _ => t

def SelNode.fields : SelNode → Option Selection
  | .mk _ f => f

def lookupSel (selection : Selection) (name : String) : Option SelNode :=
  lookupAssoc selection name

mutual

/-- `marshalSelection` from scalars.ts (lines 10-64): `null`/`undefined`
pass through, arrays recurse element-wise, and objects are rebuilt
field-by-field via `Object.entries`/`Object.fromEntries`. -/
def marshalSelection (config : ConfigFile) (selection : Selection) :
    JsValue → Except String JsValue
  | .null => .ok .null
  | .arr elems => (marshalValues config selection elems).map JsValue.arr
  | .atom _ => .ok (.obj [])
  | .obj fields => (marshalFields config selection fields).map JsValue.obj

def marshalValues (config : ConfigFile) (selection : Selection) :
    List JsValue → Except String (List JsValue)
  | [] => .ok []
  | v :: rest => do
    let v' ← marshalSelection config selection v
    let rest' ← marshalValues config selection rest
    .ok (v' :: rest')

def marshalFields (config : ConfigFile) (selection : Selection) :
    List (String × JsValue) → Except String (List (String × JsValue))
  | [] => .ok []
  | (fieldName, value) :: rest => do
    let v' ← marshalField config selection fieldName value
    let rest' ← marshalFields config selection rest
    .ok ((fieldName, v') :: rest')

/-- The body of the `Object.entries(...).map` callback of
`marshalSelection` (lines 31-61).  The destructuring
`const { type, fields } = selection[fieldName]` throws a `TypeError`
when the field is absent from the selection; `if (!type)` passes the
value through; `if (fields)` recurses; a configured scalar without a
`marshal` function throws; otherwise the scalar's `marshal` function is
applied, element-wise when the value is an array. -/
def marshalField (config : ConfigFile) (selection : Selection)
    (fieldName : String) (value : JsValue) : Except String JsValue :=
  match lookupSel selection fieldName with
  | none => .error "TypeError"
  | some entry =>
    match entry.type with
    | none => .ok value
    | some t =>
      match entry.fields with
      | some sub => marshalSelection config sub value
      | none =>
        match lookupScalar config t with
        | some spec =>
          match spec.marshal with
          | none => .error ("scalar type " ++ t ++ " is missing a marshal function")
          | some marshalFn =>
            match value with
            | .arr elems => .ok (.arr (elems.map marshalFn))
            | v => .ok (marshalFn v)
        | none => .ok value

end

mutual

/-- `unmarshalSelection` from scalars.ts (lines 126-180).  Identical
shape to `marshalSelection`, except for the scalar branch: the guard is
`if (config.scalars?.[type]?.marshal)` — it fires only when the scalar's
config carries a `marshal` function — and inside it a missing
`unmarshal` function throws. -/
def unmarshalSelection (config : ConfigFile) (selection : Selection) :
    JsValue → Except String JsValue
  | .null => .ok .null
  | .arr elems => (unmarshalValues config selection elems).map JsValue.arr
  | .atom _ => .ok (.obj [])
  | .obj fields => (unmarshalFields config selection fields).map JsValue.obj

def unmarshalValues (config : ConfigFile) (selection : Selection) :
    List JsValue → Except String (List JsValue)
  | [] => .ok []
  | v :: rest => do
    let v' ← unmarshalSelection config selection v
    let rest' ← unmarshalValues config selection rest
    .ok (v' :: rest')

def unmarshalFields (config : ConfigFile) (selection : Selection) :
    List (String × JsValue) → Except String (List (String × JsValue))
  | [] => .ok []
  | (fieldName, value) :: rest => do
    let v' ← unmarshalField config selection fieldName value
    let rest' ← unmarshalFields config selection rest
    .ok ((fieldName, v') :: rest')

def unmarshalField (config : ConfigFile) (selection : Selection)
    (fieldName : String) (value : JsValue) : Except String JsValue :=
  match lookupSel selection fieldName with
  | none => .error "TypeError"
  | some entry =>
    match entry.type with
    | none => .ok value
    | some t =>
      match entry.fields with
      | some sub => unmarshalSelection config sub value
      | none =>
        match lookupScalar config t with
        | some spec =>
          if (spec.marshal).isSome then
            match spec.unmarshal with
            | none => .error ("scalar type " ++ t ++ " is missing an unmarshal function")
            | some unmarshalFn =>
              match value with
              | .arr elems => .ok (.arr (elems.map unmarshalFn))
              | v => .ok (unmarshalFn v)
          else .ok value
        | none => .ok value

end

/-- The artifact's input descriptor: `fields` maps variable names to type
names, `types` maps named input-object types to their field tables. -/
structure InputSpec where
  fields : List (String × String)
  types : List (String × List (String × String))

structure Artifact where
  input : Option InputSpec

/-- `isScalar` from scalars.ts (lines 183-187). -/
def isScalar (config : ConfigFile) (t : String) : Bool :=
  (["String", "Boolean", "Float", "ID", "Int"] ++
    config.scalars.map Prod.fst).contains t

mutual

/-- `marshalInputs` from scalars.ts (lines 66-124): `null`/`undefined`
inputs pass through; an artifact without an `input` descriptor returns
the input unchanged; otherwise the field table for the current
`rootType` drives the conversion, recursing into named input-object
types. -/
def marshalInputs (config : ConfigFile) (art : Artifact) (rootType : String) :
    JsValue → JsValue
  | .null => .null
  | .atom s =>
    match art.input with
    | none => .atom s
    | some _ => .obj []
  | .arr elems =>
    match art.input with
    | none => .arr elems
    | some _ => .arr (marshalInputsList config art rootType elems)
  | .obj objFields =>
    match art.input with
    | none => .obj objFields
    | some inputSpec =>
      -- the JS code computes `fields` before the `Array.isArray` check, but
      -- the computation is pure and only read in the object branch
      let fields :=
        if rootType == "@root" then some inputSpec.fields
        else lookupAssoc inputSpec.types rootType
      .obj (marshalInputsFields config art inputSpec fields objFields)
termination_by input => (sizeOf input, 0)

def marshalInputsList (config : ConfigFile) (art : Artifact) (rootType : String) :
    List JsValue → List JsValue
  | [] => []
  | v :: rest =>
    marshalInputs config art rootType v :: marshalInputsList config art rootType rest
termination_by l => (sizeOf l, 2)

def marshalInputsFields (config : ConfigFile) (art : Artifact)
    (inputSpec : InputSpec) (fields : Option (List (String × String))) :
    List (String × JsValue) → List (String × JsValue)
  | [] => []
  | (fieldName, value) :: rest =>
    (fieldName, marshalInputsField config art inputSpec fields fieldName value) ::
      marshalInputsFields config art inputSpec fields rest
termination_by l => (sizeOf l, 2)

/-- The `Object.entries(input).map` callback of `marshalInputs`
(lines 96-122): an unknown field passes through; a configured `marshal`
function is applied (element-wise on arrays); a scalar type or a type not
in the artifact's `types` table passes through; otherwise the walker
recurses with the field's type as the new `rootType`. -/
def marshalInputsField (config : ConfigFile) (art : Artifact)
    (inputSpec : InputSpec) (fields : Option (List (String × String)))
    (fieldName : String) (value : JsValue) : JsValue :=
  match fields.bind (fun f => lookupAssoc f fieldName) with
  | none => value
  | some t =>
    match (lookupScalar config t).bind (fun s => s.marshal) with
    | some marshalFn =>
      match value with
      | .arr elems => .arr (elems.map marshalFn)
      | v => marshalFn v
    | none =>
      if isScalar config t || (lookupAssoc inputSpec.types t).isNone then value
      else marshalInputs config art t value
termination_by (sizeOf value, 1)

end

/-! ## Connection detection (src/unnamed/part_000, `connectionSelection`)

Schema fragment: an object type is a table of fields; a field definition
carries its argument table (argument name, mapped to the name of the
unwrapped named type `unwrapType(config, arg.type).type.name`), the name
of its own unwrapped return type, and the wrapper list produced by
`unwrapType` on its declared type. -/

inductive TypeWrapper where
  | nonNull
  | list
  | nullable
deriving DecidableEq, Repr

structure FieldDef where
  args : List (String × String)
  typeName : String
  typeWrappers : List TypeWrapper
deriving DecidableEq, Repr

/-- The object/interface types of the schema with their field tables;
a name absent from this table stands for a type on which
`getFields()` cannot be called (scalar/enum — the call would throw). -/
structure Schema where
  types : List (String × List (String × FieldDef))
deriving DecidableEq, Repr

/-- GraphQL AST selections as far as `connectionSelection` inspects them:
named fields with an optional selection set, and any other selection
kind (spreads/inline fragments, which the `find` predicates skip). -/
inductive SelectionNode where
  | field (name : String) (selectionSet : Option (List SelectionNode))
  | other

def SelectionNode.selSet : SelectionNode → Option (List SelectionNode)
  | .field _ s => s
  | .other => none

/-- `selection?.selections.find(s => s.kind === 'Field' && s.name.value === name)`. -/
def findField (sels : List SelectionNode) (name : String) : Option SelectionNode :=
  sels.find? (fun s =>
    match s with
    | .field n _ => n == name
    | .other => false)

structure ConnResult where
  selection : Option (List SelectionNode)
  typeName : String
  connection : Bool

/-- JavaScript array indexing `l[i]`: negative or out-of-range indices
yield `undefined`. -/
def jsIndex {α : Type _} (l : List α) (i : Int) : Option α :=
  if i < 0 then none else l.get? i.toNat

/-- `connectionSelection` from part_000 lines 1067-1129.  The `Except`
layer records the places where the JavaScript code dereferences a
possibly-`undefined` value and would throw a `TypeError`: reading
`nodeSelection.selectionSet` when the `edges` selection has no `node`
field, calling `getFields()` on a non-object type, and reading
`edgeField.type` when the schema type has no `edges` field. -/
def connectionSelection (schema : Schema) (field : FieldDef)
    (typeName : String) (selection : Option (List SelectionNode)) :
    Except String ConnResult :=
  let forwardPagination :=
    lookupAssoc field.args "first" == some "Int" &&
      lookupAssoc field.args "after" == some "String"
  let backwardsPagination :=
    lookupAssoc field.args "last" == some "Int" &&
      lookupAssoc field.args "before" == some "String"
  if !forwardPagination && !backwardsPagination then
    .ok { selection := selection, typeName := typeName, connection := false }
  else
    match selection.bind (fun sels => findField sels "edges") with
    | none => .ok { selection := selection, typeName := typeName, connection := false }
    | some edgesField =>
      match edgesField.selSet.bind (fun sels => findField sels "node") with
      | none =>
        -- `nodeSelection` is `undefined`; `!nodeSelection.selectionSet` throws
        .error "TypeError"
      | some nodeSelection =>
        match nodeSelection.selSet with
        | none => .ok { selection := selection, typeName := typeName, connection := false }
        | some nodeSelectionSet =>
          match lookupAssoc schema.types field.typeName with
          | none =>
            -- `getFields` is not a function on a non-object type
            .error "TypeError"
          | some fieldTypeFields =>
            match lookupAssoc fieldTypeFields "edges" with
            | none =>
              -- `edgeField` is `undefined`; `unwrapType(config, edgeField.type)` throws
              .error "TypeError"
            | some edgeField =>
              let wrappers := edgeField.typeWrappers
              if !(jsIndex wrappers ((wrappers.length : Int) - 2) ==
                    some TypeWrapper.list) then
                .ok { selection := selection, typeName := typeName, connection := false }
              else
                match lookupAssoc schema.types edgeField.typeName with
                | none =>
                  -- `getFields` on the edge member type, which is not an object
                  .error "TypeError"
                | some edgeTypeFields =>
                  match lookupAssoc edgeTypeFields "node" with
                  | none =>
                    .ok { selection := selection, typeName := typeName, connection := false }
                  | some nodeField =>
                    .ok { selection := some nodeSelectionSet
                          typeName := nodeField.typeName
                          connection := true }

/-! ## List transform error accumulation (src/unnamed/part_000, `addListFragments`)

The walk over every document visits each `@list`/`@paginate` directive
occurrence in order, maintaining the shared `lists` registry and the
`errors` accumulator; the registry payload (selection/type/filename) has
no influence on the walk's control flow — only key presence is read by
the duplicate check — so the registry is modelled by its key list.  The
connection classification performed for each registered field is
modelled separately by `connectionSelection` above and does not touch
the registry keys or the error accumulator. -/

inductive ArgValueKind where
  | stringValue (s : String)
  | otherValue
deriving DecidableEq, Repr

/-- One directive occurrence met by the walk: the directive's name and
its `name` argument, when present. -/
structure DirectiveOcc where
  directive : String
  nameArg : Option ArgValueKind
deriving DecidableEq, Repr

structure ListDoc where
  filename : String
  directives : List DirectiveOcc
deriving DecidableEq, Repr

/-- An error as accumulated by the walk: the offending document's
filename and the message. -/
structure HError where
  filepath : String
  message : String
deriving DecidableEq, Repr

structure TransformConfig where
  listDirective : String
  paginateDirective : String
deriving DecidableEq, Repr

structure ListWalkState where
  lists : List String
  errors : List HError
deriving DecidableEq, Repr

/-- The `Directive` visitor of `addListFragments` (part_000 lines
747-843), restricted to its effect on the registry keys and the error
accumulator. -/
def processDirective (cfg : TransformConfig) (filename : String)
    (st : ListWalkState) (node : DirectiveOcc) : ListWalkState :=
  if [cfg.listDirective, cfg.paginateDirective].contains node.directive then
    match node.nameArg with
    | none =>
      if node.directive == cfg.listDirective then
        { st with errors := st.errors ++
            [{ filepath := filename
               message := "@" ++ node.directive ++ " must have a name argument" }] }
      else st
    | some ArgValueKind.otherValue =>
      { st with errors := st.errors ++
          [{ filepath := filename
             message := "@" ++ node.directive ++ " name must be a string" }] }
    | some (ArgValueKind.stringValue name) =>
      let errors :=
        if st.lists.contains name then
          st.errors ++
            [{ filepath := filename
               message := "@" ++ node.directive ++ " name must be unique" }]
        else st.errors
      -- `lists[name] = {...}`: registering an already-present key leaves
      -- the key set unchanged
      { lists := if st.lists.contains name then st.lists else st.lists ++ [name]
        errors := errors }
  else st

def walkDoc (cfg : TransformConfig) (st : ListWalkState) (doc : ListDoc) :
    ListWalkState :=
  doc.directives.foldl (processDirective cfg doc.filename) st

def walkDocs (cfg : TransformConfig) (docs : List ListDoc) : ListWalkState :=
  docs.foldl (walkDoc cfg) { lists := [], errors := [] }

/-- `addListFragments` (part_000 lines 729-891) up to the error raise:
the accumulated errors are thrown as one batch after the entire walk,
otherwise the registry survives into fragment synthesis. -/
def addListFragments (cfg : TransformConfig) (docs : List ListDoc) :
    Except (List HError) (List String) :=
  let st := walkDocs cfg docs
  if st.errors.isEmpty then .ok st.lists else .error st.errors

/-- The per-occurrence error contribution, written from the spec's words
for the refinement proof: one error for a missing `@list` name, a
non-string name, or a name already registered, computed against the
registry of names seen strictly earlier; no error otherwise. -/
def occError (cfg : TransformConfig) (registry : List String)
    (filename : String) (node : DirectiveOcc) : List HError :=
  if [cfg.listDirective, cfg.paginateDirective].contains node.directive then
    match node.nameArg with
    | none =>
      if node.directive == cfg.listDirective then
        [{ filepath := filename
           message := "@" ++ node.directive ++ " must have a name argument" }]
      else []
    | some ArgValueKind.otherValue =>
      [{ filepath := filename
         message := "@" ++ node.directive ++ " name must be a string" }]
    | some (ArgValueKind.stringValue name) =>
      if registry.contains name then
        [{ filepath := filename
           message := "@" ++ node.directive ++ " name must be unique" }]
      else []
  else []

/-- The registry of names after an occurrence, spec-side counterpart. -/
def occRegister (cfg : TransformConfig) (registry : List String)
    (node : DirectiveOcc) : List String :=
  if [cfg.listDirective, cfg.paginateDirective].contains node.directive then
    match node.nameArg with
    | some (ArgValueKind.stringValue name) =>
      if registry.contains name then registry else registry ++ [name]
    | _ => registry
  else registry

/-- All directive occurrences of the document set in walk order, paired
with the originating filename. -/
def docOccs (docs : List ListDoc) : List (String × DirectiveOcc) :=
  docs.flatMap (fun d => d.directives.map (fun n => (d.filename, n)))

/-- The spec's description of the error batch: the concatenation over
every occurrence, in walk order, of that occurrence's contribution. -/
def collectFrom (cfg : TransformConfig) (registry : List String) :
    List (String × DirectiveOcc) → List HError
  | [] => []
  | (filename, node) :: rest =>
    occError cfg registry filename node ++
      collectFrom cfg (occRegister cfg registry node) rest

def collectListErrors (cfg : TransformConfig) (docs : List ListDoc) : List HError :=
  collectFrom cfg [] (docOccs docs)

/-- The walk restated over the flattened occurrence list. -/
def walkOccs (cfg : TransformConfig) (st : ListWalkState)
    (occs : List (String × DirectiveOcc)) : ListWalkState :=
  occs.foldl (fun s p => processDirective cfg p.1 s p.2) st

/-- Spec-side registry accumulation over the occurrence list. -/
def registerFrom (cfg : TransformConfig) (registry : List String) :
    List (String × DirectiveOcc) → List String
  | [] => registry
  | (_, node) :: rest => registerFrom cfg (occRegister cfg registry node) rest

/-! ## Masked-flag merge of the selection compiler

Modelled from the spec: the selection/artifact compiler itself is not
among the sources under verification — only its tests
(artifacts.test.ts) are — so the masked-merge behaviour is modelled from
the spec's words: a selection level holds direct field selections and
fragment spreads; sibling occurrences of the same response alias are
merged into one node; a field's `masked` flag is the logical AND of
"not directly selected" across all appearances merged at that level, so
a direct appearance forces `masked:false` and fields introduced only
through spreads stay `masked:true`. -/

/-- A document selection level: direct fields (with their own nested
level) and fragment spreads. -/
inductive DocSel where
  | field (name : String) (sub : List DocSel)
  | spread (fragmentName : String)

/-- A fragment body (spread-free, nested fields only). -/
inductive PlainSel where
  | field (name : String) (sub : List PlainSel)

/-- A compiled selection node: the `masked` flag and the nested field map. -/
inductive CompiledField where
  | mk (masked : Bool) (fields : List (String × CompiledField))

def CompiledField.masked : CompiledField → Bool
  | .mk m _ => m

def CompiledField.cfields : CompiledField → List (String × CompiledField)
  | .mk _ f => f

mutual

/-- Merge two occurrences of the same response alias: `masked` is ANDed,
nested fields are merged recursively. -/
def mergeField : CompiledField → CompiledField → CompiledField
  | .mk m1 f1, .mk m2 f2 => .mk (m1 && m2) (mergeInto f1 f2)
termination_by _ b => (sizeOf b, 0, 0)

/-- Merge every entry of `add` into `acc`, in order. -/
def mergeInto (acc add : List (String × CompiledField)) :
    List (String × CompiledField) :=
  match add with
  | [] => acc
  | (n, node) :: rest => mergeInto (insertField acc n node) rest
termination_by (sizeOf add, 2, 0)

/-- Merge one entry into a level: merged with the existing occurrence of
the same alias, appended otherwise. -/
def insertField (acc : List (String × CompiledField)) (n : String)
    (node : CompiledField) : List (String × CompiledField) :=
  match acc with
  | [] => [(n, node)]
  | (m, existing) :: tl =>
    if m == n then (m, mergeField existing node) :: tl
    else (m, existing) :: insertField tl n node
termination_by (sizeOf node, 1, sizeOf acc)

end

/-- Compile a fragment body reached through a spread: every field it
introduces, at every level, is an appearance that is not a direct
selection, hence `masked:true`. -/
def compilePlain : List PlainSel → List (String × CompiledField)
  | [] => []
  | PlainSel.field n sub :: rest =>
    mergeInto [(n, .mk true (compilePlain sub))] (compilePlain rest)

/-- Modelled from the spec: the selection/artifact compiler that computes
the `masked` flag is missing from the sources (only its tests,
artifacts.test.ts, are present).  Per the spec's words, compiling one
selection level makes direct fields contribute `masked:false`
appearances, spreads contribute their fragment's fields as `masked:true`
appearances, and sibling appearances of one response alias merge with
`masked` ANDed. -/
def compileSels (env : List (String × List PlainSel)) :
    List DocSel → List (String × CompiledField)
  | [] => []
  | DocSel.field n sub :: rest =>
    mergeInto [(n, .mk false (compileSels env sub))] (compileSels env rest)
  | DocSel.spread f :: rest =>
    mergeInto
      (match lookupAssoc env f with
       | none => []
       | some body => compilePlain body)
      (compileSels env rest)

/-- The response aliases selected directly (not via a spread) at a level. -/
def directNames : List DocSel → List String
  | [] => []
  | DocSel.field n _ :: rest => n :: directNames rest
  | DocSel.spread _ :: rest => directNames rest

/-! ## Round-trip side conditions for the scalar walker -/

mutual

/-- Values that the walker can traverse without degenerating: at every
position where a selection applies (the top level, the elements of an
array there, and the value of a field that carries a nested selection),
the value is `null`, an array or an object — a primitive at such a
position is rebuilt as `{}` by the object branch — and every object
field is present in the selection in force. -/
def compatValue (config : ConfigFile) (selection : Selection) :
    JsValue → Bool
  | .null => true
  | .atom _ => false
  | .arr elems => compatList config selection elems
  | .obj fields => compatFields config selection fields

def compatList (config : ConfigFile) (selection : Selection) :
    List JsValue → Bool
  | [] => true
  | v :: rest => compatValue config selection v && compatList config selection rest

def compatFields (config : ConfigFile) (selection : Selection) :
    List (String × JsValue) → Bool
  | [] => true
  | (fieldName, value) :: rest =>
    compatField config selection fieldName value &&
      compatFields config selection rest

def compatField (config : ConfigFile) (selection : Selection)
    (fieldName : String) (value : JsValue) : Bool :=
  match lookupSel selection fieldName with
  | none => false
  | some entry =>
    match entry.type with
    | none => true
    | some _ =>
      match entry.fields with
      | some sub => compatValue config sub value
      | none => true

end

/-- Every configured custom scalar has both conversion functions, they
are mutually inverse, and each maps non-array values to non-array
values (and array values to array values). -/
def goodScalars (config : ConfigFile) : Prop :=
  ∀ p ∈ config.scalars, ∃ f g,
    p.2.marshal = some f ∧ p.2.unmarshal = some g ∧
    (∀ v, g (f v) = v) ∧ (∀ v, f (g v) = v) ∧
    (∀ v, (f v).isArr = v.isArr) ∧ (∀ v, (g v).isArr = v.isArr)

/-- Boolean helper describing the dependency of the computed enabled bits
on the argument-presence bits (a pure fact about the boolean structure of
`computeFlags`, factored out for the proofs below). -/
theorem computeFlags_enabled (args passed : List String)
    (flags : PaginationFlags) :
    (computeFlags args passed flags).first.enabled =
      (!passed.contains "last" && args.contains "first" && args.contains "after") ∧
    (computeFlags args passed flags).after.enabled =
      (!passed.contains "last" && args.contains "first" && args.contains "after") ∧
    (computeFlags args passed flags).last.enabled =
      (!passed.contains "first" && args.contains "last" && args.contains "before") ∧
    (computeFlags args passed flags).before.enabled =
      (!passed.contains "first" && args.contains "last" && args.contains "before") ∧
    (computeFlags args passed flags).limit.enabled =
      (!(!passed.contains "last" && args.contains "first" && args.contains "after") &&
        !(!passed.contains "first" && args.contains "last" && args.contains "before") &&
        args.contains "offset" && args.contains "limit") ∧
    (computeFlags args passed flags).offset.enabled =
      (!(!passed.contains "last" && args.contains "first" && args.contains "after") &&
        !(!passed.contains "first" && args.contains "last" && args.contains "before") &&
        args.contains "offset" && args.contains "limit") := by
  simp [computeFlags]

/-- C1 counterexample: the claim that no two pagination flag pairs are
ever enabled simultaneously is false — a field declaring all four cursor
arguments, at a call site passing neither `first` nor `last`, gets both
the first/after pair and the last/before pair enabled. -/
theorem claim_c1_counterexample :
    (computeFlags ["first", "after", "last", "before"] [] initialFlags).first.enabled
        = true ∧
    (computeFlags ["first", "after", "last", "before"] [] initialFlags).after.enabled
        = true ∧
    (computeFlags ["first", "after", "last", "before"] [] initialFlags).last.enabled
        = true ∧
    (computeFlags ["first", "after", "last", "before"] [] initialFlags).before.enabled
        = true := by
  decide

/-- C1 (amended): after the transform computes the flags, the two flags
of each pair always agree, and the limit/offset pair is never enabled
together with first/after or with last/before; the first/after and
last/before pairs can, however, be simultaneously enabled. -/
theorem claim_c1_pagination_pairs (args passed : List String)
    (flags : PaginationFlags) :
    (computeFlags args passed flags).first.enabled =
      (computeFlags args passed flags).after.enabled ∧
    (computeFlags args passed flags).last.enabled =
      (computeFlags args passed flags).before.enabled ∧
    (computeFlags args passed flags).limit.enabled =
      (computeFlags args passed flags).offset.enabled ∧
    ((computeFlags args passed flags).limit.enabled &&
      (computeFlags args passed flags).first.enabled) = false ∧
    ((computeFlags args passed flags).limit.enabled &&
      (computeFlags args passed flags).last.enabled) = false := by
  simp only [computeFlags]
  generalize passed.contains "last" = sb
  generalize passed.contains "first" = sf
  generalize args.contains "first" = hf
  generalize args.contains "after" = ha
  generalize args.contains "last" = hl
  generalize args.contains "before" = hb
  generalize args.contains "offset" = ho
  generalize args.contains "limit" = hli
  cases sb <;> cases sf <;> cases hf <;> cases ha <;> cases hl <;>
    cases hb <;> cases ho <;> cases hli <;> simp

/-- C5: a field whose schema definition declares first, after, last and
before, at a call site supplying `last` but not `first`, gets the
backward (last/before) flags enabled and the forward (first/after)
flags disabled. -/
theorem claim_c5_backward_selected (args passed : List String)
    (flags : PaginationFlags)
    (h1 : args.contains "first" = true) (h2 : args.contains "after" = true)
    (h3 : args.contains "last" = true) (h4 : args.contains "before" = true)
    (h5 : passed.contains "last" = true) (h6 : passed.contains "first" = false) :
    (computeFlags args passed flags).last.enabled = true ∧
    (computeFlags args passed flags).before.enabled = true ∧
    (computeFlags args passed flags).first.enabled = false ∧
    (computeFlags args passed flags).after.enabled = false := by
  simp at h1 h2 h3 h4 h5 h6
  simp [computeFlags, h1, h2, h3, h4, h5, h6]

theorem claim_c5_witness :
    (computeFlags ["first", "after", "last", "before"] ["last"]
        initialFlags).last.enabled = true ∧
    (computeFlags ["first", "after", "last", "before"] ["last"]
        initialFlags).before.enabled = true ∧
    (computeFlags ["first", "after", "last", "before"] ["last"]
        initialFlags).first.enabled = false ∧
    (computeFlags ["first", "after", "last", "before"] ["last"]
        initialFlags).after.enabled = false :=
  claim_c5_backward_selected ["first", "after", "last", "before"] ["last"]
    initialFlags (by decide) (by decide) (by decide) (by decide)
    (by decide) (by decide)

/-- C8: the refetch descriptor recorded for a paginated document has
`update = prepend` exactly when the backward (`last`) flag is enabled,
and `update = append` otherwise. -/
theorem claim_c8_update_prepend_iff_last (flags : PaginationFlags)
    (path : List String) (nodeQuery : Bool) (targetType : String) :
    ((paginateRefetch flags path nodeQuery targetType).update =
        RefetchUpdateMode.prepend ↔ flags.last.enabled = true) ∧
    ((paginateRefetch flags path nodeQuery targetType).update =
        RefetchUpdateMode.append ↔ flags.last.enabled = false) := by
  unfold paginateRefetch
  cases hl : flags.last.enabled <;>
    cases hf : flags.first.enabled <;>
      cases hli : flags.limit.enabled <;> simp

/-- C10: for an artifact whose `input` descriptor is absent, and any
non-null input value, `marshalInputs` returns the input unchanged: no
scalar conversion and no recursion happens. -/
theorem claim_c10_no_input_identity (config : ConfigFile) (art : Artifact)
    (rootType : String) (input : JsValue)
    (hin : art.input = none) (hnn : input ≠ JsValue.null) :
    marshalInputs config art rootType input = input := by
  cases input with
  | null => exact absurd rfl hnn
  | atom s => simp [marshalInputs, hin]
  | arr elems => simp [marshalInputs, hin]
  | obj fields => simp [marshalInputs, hin]

theorem claim_c10_witness :
    marshalInputs ⟨[]⟩ ⟨none⟩ "@root"
        (JsValue.obj [("x", JsValue.atom "7")]) =
      JsValue.obj [("x", JsValue.atom "7")] :=
  claim_c10_no_input_identity ⟨[]⟩ ⟨none⟩ "@root"
    (JsValue.obj [("x", JsValue.atom "7")]) rfl (by simp)

theorem except_bind_error {α β : Type _} (e : String) (f : α → Except String β) :
    (Except.error e >>= f) = Except.error e := rfl

theorem except_bind_ok {α β : Type _} (a : α) (f : α → Except String β) :
    (Except.ok a >>= f) = f a := rfl

theorem except_map_error {α β : Type _} (e : String) (f : α → β) :
    (Except.error e : Except String α).map f = Except.error e := rfl

theorem except_map_ok {α β : Type _} (a : α) (f : α → β) :
    (Except.ok a : Except String α).map f = Except.ok (f a) := rfl

theorem marshalFields_error_of_absent (config : ConfigFile) (selection : Selection) :
    ∀ (fs : List (String × JsValue)) (name : String) (v : JsValue),
      (name, v) ∈ fs → lookupSel selection name = none →
      ∃ e, marshalFields config selection fs = Except.error e := by
  intro fs
  induction fs with
  | nil => intro name v h _; cases h
  | cons hd tl ih =>
    intro name v hmem habs
    obtain ⟨n, w⟩ := hd
    cases hres : marshalField config selection n w with
    | error e =>
      exact ⟨e, by simp [marshalFields, hres, except_bind_error]⟩
    | ok v2 =>
      rcases List.mem_cons.mp hmem with heq | htl
      · cases heq
        simp [marshalField, habs] at hres
      · obtain ⟨e, he⟩ := ih name v htl habs
        exact ⟨e, by simp [marshalFields, hres, he, except_bind_ok, except_bind_error]⟩

theorem unmarshalFields_error_of_absent (config : ConfigFile) (selection : Selection) :
    ∀ (fs : List (String × JsValue)) (name : String) (v : JsValue),
      (name, v) ∈ fs → lookupSel selection name = none →
      ∃ e, unmarshalFields config selection fs = Except.error e := by
  intro fs
  induction fs with
  | nil => intro name v h _; cases h
  | cons hd tl ih =>
    intro name v hmem habs
    obtain ⟨n, w⟩ := hd
    cases hres : unmarshalField config selection n w with
    | error e =>
      exact ⟨e, by simp [unmarshalFields, hres, except_bind_error]⟩
    | ok v2 =>
      rcases List.mem_cons.mp hmem with heq | htl
      · cases heq
        simp [unmarshalField, habs] at hres
      · obtain ⟨e, he⟩ := ih name v htl habs
        exact ⟨e, by simp [unmarshalFields, hres, he, except_bind_ok, except_bind_error]⟩

/-- C2 counterexample: the claim that fields absent from the Selection
pass through unchanged without error is false — marshaling an object
with a field that the (empty) selection does not mention throws the
`TypeError` of destructuring `selection[fieldName]`. -/
theorem claim_c2_counterexample :
    marshalSelection ⟨[]⟩ [] (JsValue.obj [("x", JsValue.atom "1")]) =
      Except.error "TypeError" := by
  simp [marshalSelection, marshalFields, marshalField, lookupSel, lookupAssoc]
  rfl

/-- C2 (amended): an own field whose name is absent from the Selection
makes both `marshalSelection` and `unmarshalSelection` raise an error
(the `TypeError` of destructuring `undefined`); only fields present in
the Selection without type information pass through unchanged. -/
theorem claim_c2_absent_field_raises (config : ConfigFile)
    (selection : Selection) (fs : List (String × JsValue)) (name : String)
    (v : JsValue) (hmem : (name, v) ∈ fs)
    (habs : lookupSel selection name = none) :
    (∃ e, marshalSelection config selection (JsValue.obj fs) = Except.error e) ∧
    (∃ e, unmarshalSelection config selection (JsValue.obj fs) = Except.error e) := by
  obtain ⟨e1, h1⟩ :=
    marshalFields_error_of_absent config selection fs name v hmem habs
  obtain ⟨e2, h2⟩ :=
    unmarshalFields_error_of_absent config selection fs name v hmem habs
  exact ⟨⟨e1, by simp [marshalSelection, h1, except_map_error]⟩,
    ⟨e2, by simp [unmarshalSelection, h2, except_map_error]⟩⟩

theorem claim_c2_witness :
    (∃ e, marshalSelection ⟨[]⟩ [] (JsValue.obj [("x", JsValue.atom "1")]) =
      Except.error e) ∧
    (∃ e, unmarshalSelection ⟨[]⟩ [] (JsValue.obj [("x", JsValue.atom "1")]) =
      Except.error e) :=
  claim_c2_absent_field_raises ⟨[]⟩ [] [("x", JsValue.atom "1")] "x"
    (JsValue.atom "1") (by simp) rfl

/-- C4 counterexample: the claim that a configured custom scalar missing
the conversion function required for the current direction always raises
at the moment of encounter is false — in the unmarshal direction a
scalar configured with neither function is passed over silently, because
the guard tests the presence of `marshal`, not of `unmarshal`. -/
theorem claim_c4_counterexample :
    unmarshalSelection ⟨[("DT", ⟨none, none⟩)]⟩
        [("x", SelNode.mk (some "DT") none)]
        (JsValue.obj [("x", JsValue.atom "d")]) =
      Except.ok (JsValue.obj [("x", JsValue.atom "d")]) := by
  simp [unmarshalSelection, unmarshalFields, unmarshalField, lookupSel,
    lookupAssoc, lookupScalar, SelNode.type, SelNode.fields]
  rfl

/-- C4 (amended): when a value of a configured custom scalar type is
encountered, the marshal direction raises iff the scalar's config lacks
`marshal`; the unmarshal direction raises iff the config has `marshal`
but lacks `unmarshal`, and a config without `marshal` makes the
unmarshal direction pass the value through silently. A configured scalar
whose type is never encountered still causes no error. -/
theorem claim_c4_missing_function_behaviour (config : ConfigFile)
    (selection : Selection) (name t : String) (v : JsValue) (spec : ScalarSpec)
    (hsel : lookupSel selection name = some (SelNode.mk (some t) none))
    (hsc : lookupScalar config t = some spec) :
    (spec.marshal = none →
      marshalSelection config selection (JsValue.obj [(name, v)]) =
        Except.error ("scalar type " ++ t ++ " is missing a marshal function")) ∧
    (∀ f, spec.marshal = some f → spec.unmarshal = none →
      unmarshalSelection config selection (JsValue.obj [(name, v)]) =
        Except.error ("scalar type " ++ t ++ " is missing an unmarshal function")) ∧
    (spec.marshal = none →
      unmarshalSelection config selection (JsValue.obj [(name, v)]) =
        Except.ok (JsValue.obj [(name, v)])) := by
  refine ⟨?_, ?_, ?_⟩
  · intro hm
    simp [marshalSelection, marshalFields, marshalField, hsel, hsc, hm,
      SelNode.type, SelNode.fields, except_bind_error, except_map_error]
  · intro f hm hu
    simp [unmarshalSelection, unmarshalFields, unmarshalField, hsel, hsc, hm,
      hu, SelNode.type, SelNode.fields, except_bind_error, except_map_error]
  · intro hm
    simp [unmarshalSelection, unmarshalFields, unmarshalField, hsel, hsc, hm,
      SelNode.type, SelNode.fields, except_bind_ok, except_map_ok]

theorem claim_c4_witness :
    marshalSelection ⟨[("DT", ⟨none, none⟩)]⟩
        [("x", SelNode.mk (some "DT") none)]
        (JsValue.obj [("x", JsValue.atom "d")]) =
      Except.error ("scalar type " ++ "DT" ++ " is missing a marshal function") :=
  (claim_c4_missing_function_behaviour ⟨[("DT", ⟨none, none⟩)]⟩
    [("x", SelNode.mk (some "DT") none)] "x" "DT" (JsValue.atom "d")
    ⟨none, none⟩ rfl rfl).1 rfl

/-- C3: the claim says a list-tagged field whose `edges` selection has no
`node` field is classified as a plain list without error; the code
instead reads `.selectionSet` off the `undefined` result of the `node`
lookup and throws a `TypeError`.  Evaluation of `connectionSelection` at
such an input. -/
theorem claim_c3_missing_node_crash :
    connectionSelection ⟨[]⟩
        ⟨[("first", "Int"), ("after", "String")], "UserConnection", []⟩
        "Query"
        (some [SelectionNode.field "edges"
            (some [SelectionNode.field "cursor" none])]) =
      Except.error "TypeError" := by
  rfl

theorem processDirective_spec (cfg : TransformConfig) (fn : String)
    (st : ListWalkState) (node : DirectiveOcc) :
    (processDirective cfg fn st node).errors =
        st.errors ++ occError cfg st.lists fn node ∧
    (processDirective cfg fn st node).lists = occRegister cfg st.lists node := by
  rcases node with ⟨d, na⟩
  unfold processDirective occError occRegister
  cases hmem : [cfg.listDirective, cfg.paginateDirective].contains d
  · simp [hmem]
  · rcases na with _ | na
    · cases hld : d == cfg.listDirective <;> simp [hmem, hld]
    · rcases na with s | _
      · by_cases hc : s ∈ st.lists <;> simp [hmem, hc]
      · simp [hmem]

theorem walkOccs_spec (cfg : TransformConfig) :
    ∀ (occs : List (String × DirectiveOcc)) (st : ListWalkState),
      (walkOccs cfg st occs).errors =
          st.errors ++ collectFrom cfg st.lists occs ∧
      (walkOccs cfg st occs).lists = registerFrom cfg st.lists occs := by
  intro occs
  induction occs with
  | nil => intro st; simp [walkOccs, collectFrom, registerFrom]
  | cons p rest ih =>
    intro st
    obtain ⟨fn, node⟩ := p
    obtain ⟨he, hl⟩ := processDirective_spec cfg fn st node
    have step : walkOccs cfg st ((fn, node) :: rest) =
        walkOccs cfg (processDirective cfg fn st node) rest := by
      simp [walkOccs]
    obtain ⟨ihe, ihl⟩ := ih (processDirective cfg fn st node)
    refine ⟨?_, ?_⟩
    · rw [step, ihe, he, hl, collectFrom, List.append_assoc]
    · rw [step, ihl, hl, registerFrom]

theorem walkOccs_append (cfg : TransformConfig) :
    ∀ (a b : List (String × DirectiveOcc)) (st : ListWalkState),
      walkOccs cfg st (a ++ b) = walkOccs cfg (walkOccs cfg st a) b := by
  intro a b st
  simp [walkOccs, List.foldl_append]

theorem walkDoc_eq_walkOccs (cfg : TransformConfig) (st : ListWalkState)
    (d : ListDoc) :
    walkDoc cfg st d =
      walkOccs cfg st (d.directives.map (fun n => (d.filename, n))) := by
  simp [walkDoc, walkOccs, List.foldl_map]

theorem walkDocs_eq_walkOccs (cfg : TransformConfig) :
    ∀ (docs : List ListDoc) (st : ListWalkState),
      docs.foldl (walkDoc cfg) st = walkOccs cfg st (docOccs docs) := by
  intro docs
  induction docs with
  | nil => intro st; simp [walkOccs, docOccs]
  | cons d ds ih =>
    intro st
    have hocc : docOccs (d :: ds) =
        d.directives.map (fun n => (d.filename, n)) ++ docOccs ds := by
      simp [docOccs]
    rw [List.foldl_cons, ih, hocc, walkOccs_append, walkDoc_eq_walkOccs]

/-- C7: the list transform accumulates, over the whole document walk,
exactly one error per offending directive occurrence — a `@list` with a
missing name, any tracked directive with a non-string name, or a name
already registered earlier anywhere in the document set — and raises the
accumulated batch as a whole only after every document has been walked
(`addListFragments` fails with the full concatenation, never with a
prefix); a `@paginate` with no name argument contributes no error. -/
theorem claim_c7_error_accumulation (cfg : TransformConfig)
    (docs : List ListDoc) (hne : cfg.listDirective ≠ cfg.paginateDirective) :
    (∀ errs, addListFragments cfg docs = Except.error errs ↔
      (errs = collectListErrors cfg docs ∧ errs ≠ [])) ∧
    (∀ registry filename,
      occError cfg registry filename ⟨cfg.paginateDirective, none⟩ = []) ∧
    (∀ registry filename,
      occError cfg registry filename ⟨cfg.listDirective, none⟩ =
        [⟨filename, "@" ++ cfg.listDirective ++ " must have a name argument"⟩]) ∧
    (∀ registry filename,
      occError cfg registry filename
          ⟨cfg.listDirective, some ArgValueKind.otherValue⟩ =
        [⟨filename, "@" ++ cfg.listDirective ++ " name must be a string"⟩]) ∧
    (∀ registry filename name, registry.contains name = true →
      occError cfg registry filename
          ⟨cfg.listDirective, some (ArgValueKind.stringValue name)⟩ =
        [⟨filename, "@" ++ cfg.listDirective ++ " name must be unique"⟩]) := by
  refine ⟨?_, ?_, ?_, ?_, ?_⟩
  · intro errs
    have herrs : (walkDocs cfg docs).errors = collectListErrors cfg docs := by
      rw [walkDocs, walkDocs_eq_walkOccs]
      simpa [collectListErrors] using (walkOccs_spec cfg (docOccs docs) ⟨[], []⟩).1
    have hshow : addListFragments cfg docs =
        (if (walkDocs cfg docs).errors.isEmpty = true
          then Except.ok (walkDocs cfg docs).lists
          else Except.error (walkDocs cfg docs).errors) := rfl
    rw [hshow]
    by_cases hemp : (walkDocs cfg docs).errors.isEmpty = true
    · rw [if_pos hemp]
      constructor
      · intro h; simp at h
      · rintro ⟨rfl, hne2⟩
        have hnil : collectListErrors cfg docs = [] := by
          rw [← herrs]
          simpa using hemp
        exact absurd hnil hne2
    · rw [if_neg hemp]
      constructor
      · intro h
        have heq : (walkDocs cfg docs).errors = errs := by
          simpa using h
        refine ⟨by rw [← heq, herrs], ?_⟩
        intro hnil
        exact hemp (by simp [heq ▸ hnil])
      · rintro ⟨rfl, _⟩
        rw [herrs]
  · intro registry filename
    have hbeq : (cfg.paginateDirective == cfg.listDirective) = false :=
      beq_eq_false_iff_ne.mpr (Ne.symm hne)
    simp [occError, hbeq]
  · intro registry filename
    simp [occError]
  · intro registry filename
    simp [occError]
  · intro registry filename name hc
    simp at hc
    simp [occError, hc]

theorem claim_c7_witness :
    addListFragments ⟨"list", "paginate"⟩
        [⟨"a.gql", [⟨"list", some (ArgValueKind.stringValue "All")⟩]⟩,
         ⟨"b.gql", [⟨"list", some (ArgValueKind.stringValue "All")⟩,
                    ⟨"list", none⟩]⟩] =
      Except.error [⟨"b.gql", "@" ++ "list" ++ " name must be unique"⟩,
                    ⟨"b.gql", "@" ++ "list" ++ " must have a name argument"⟩] ↔
    ([⟨"b.gql", "@" ++ "list" ++ " name must be unique"⟩,
      ⟨"b.gql", "@" ++ "list" ++ " must have a name argument"⟩] =
        collectListErrors ⟨"list", "paginate"⟩
          [⟨"a.gql", [⟨"list", some (ArgValueKind.stringValue "All")⟩]⟩,
           ⟨"b.gql", [⟨"list", some (ArgValueKind.stringValue "All")⟩,
                      ⟨"list", none⟩]⟩] ∧
      ([⟨"b.gql", "@" ++ "list" ++ " name must be unique"⟩,
        ⟨"b.gql", "@" ++ "list" ++ " must have a name argument"⟩] :
          List HError) ≠ []) :=
  (claim_c7_error_accumulation ⟨"list", "paginate"⟩
    [⟨"a.gql", [⟨"list", some (ArgValueKind.stringValue "All")⟩]⟩,
     ⟨"b.gql", [⟨"list", some (ArgValueKind.stringValue "All")⟩,
                ⟨"list", none⟩]⟩] (by decide)).1
    [⟨"b.gql", "@" ++ "list" ++ " name must be unique"⟩,
     ⟨"b.gql", "@" ++ "list" ++ " must have a name argument"⟩]


theorem lookupAssoc_cons {α : Type _} (k : String) (v : α)
    (tl : List (String × α)) (m : String) :
    lookupAssoc ((k, v) :: tl) m = if k == m then some v else lookupAssoc tl m := by
  cases h : (k == m) <;> simp [lookupAssoc, List.find?_cons, h]

theorem lookupAssoc_none {α : Type _} :
    ∀ (l : List (String × α)) (m : String),
      lookupAssoc l m = none ↔ m ∉ l.map Prod.fst := by
  intro l
  induction l with
  | nil => intro m; simp [lookupAssoc]
  | cons hd tl ih =>
    intro m
    obtain ⟨k, v⟩ := hd
    rw [lookupAssoc_cons]
    by_cases h : k = m
    · subst h; simp
    · have hb : (k == m) = false := by simp [h]
      simp only [hb, Bool.false_eq_true, if_false, List.map_cons, List.mem_cons,
        not_or]
      rw [ih]
      exact ⟨fun hn => ⟨fun hh => h hh.symm, hn⟩, fun hp => hp.2⟩

theorem mergeField_masked (a b : CompiledField) :
    (mergeField a b).masked = (a.masked && b.masked) := by
  cases a; cases b; simp [mergeField, CompiledField.masked]

theorem lookup_insertField :
    ∀ (acc : List (String × CompiledField)) (n : String) (node : CompiledField)
      (m : String),
      lookupAssoc (insertField acc n node) m =
        if n == m then
          (match lookupAssoc acc n with
           | some x => some (mergeField x node)
           | none => some node)
        else lookupAssoc acc m := by
  intro acc n node
  induction acc with
  | nil =>
    intro m
    cases h : (n == m) <;> simp [insertField, lookupAssoc_cons, h, lookupAssoc]
  | cons hd tl ih =>
    intro m
    obtain ⟨k, x⟩ := hd
    by_cases hkn : k = n
    · subst hkn
      by_cases hkm : k = m
      · subst hkm
        simp [insertField, lookupAssoc_cons]
      · simp [insertField, lookupAssoc_cons, hkm]
    · by_cases hkm : k = m
      · subst hkm
        have hnm : ¬(n = k) := fun h => hkn h.symm
        simp [insertField, lookupAssoc_cons, hkn, hnm, ih]
      · simp [insertField, lookupAssoc_cons, hkn, hkm, ih]

theorem keys_insertField :
    ∀ (acc : List (String × CompiledField)) (n : String) (node : CompiledField),
      (insertField acc n node).map Prod.fst =
        if n ∈ acc.map Prod.fst then acc.map Prod.fst
        else acc.map Prod.fst ++ [n] := by
  intro acc n node
  induction acc with
  | nil => simp [insertField]
  | cons hd tl ih =>
    obtain ⟨k, x⟩ := hd
    by_cases h : k = n
    · subst h; simp [insertField]
    · have hnk : ¬(n = k) := fun hh => h hh.symm
      simp only [insertField, beq_iff_eq, h, if_false, List.map_cons, List.mem_cons, ih]
      by_cases hmem : n ∈ tl.map Prod.fst <;> simp [hmem, hnk]

theorem nodup_insertField (acc : List (String × CompiledField)) (n : String)
    (node : CompiledField) (h : (acc.map Prod.fst).Nodup) :
    ((insertField acc n node).map Prod.fst).Nodup := by
  rw [keys_insertField]
  by_cases hmem : n ∈ acc.map Prod.fst
  · simpa [hmem] using h
  · simp [hmem, List.nodup_append, h]

theorem nodup_mergeInto :
    ∀ (add acc : List (String × CompiledField)),
      (acc.map Prod.fst).Nodup → ((mergeInto acc add).map Prod.fst).Nodup := by
  intro add
  induction add with
  | nil => intro acc h; simpa [mergeInto] using h
  | cons hd rest ih =>
    intro acc h
    obtain ⟨k, v⟩ := hd
    rw [show mergeInto acc ((k, v) :: rest) = mergeInto (insertField acc k v) rest
      from by simp [mergeInto]]
    exact ih _ (nodup_insertField acc k v h)

theorem lookup_mergeInto :
    ∀ (add acc : List (String × CompiledField)) (m : String),
      (add.map Prod.fst).Nodup →
      lookupAssoc (mergeInto acc add) m =
        match lookupAssoc acc m, lookupAssoc add m with
        | none, none => none
        | some x, none => some x
        | none, some y => some y
        | some x, some y => some (mergeField x y) := by
  intro add
  induction add with
  | nil =>
    intro acc m _
    have hnil : lookupAssoc ([] : List (String × CompiledField)) m = none := rfl
    cases h : lookupAssoc acc m <;> simp [mergeInto, h, hnil]
  | cons hd rest ih =>
    intro acc m hnd
    obtain ⟨k, v⟩ := hd
    simp only [List.map_cons, List.nodup_cons] at hnd
    obtain ⟨hknotin, hnd2⟩ := hnd
    rw [show mergeInto acc ((k, v) :: rest) = mergeInto (insertField acc k v) rest
      from by simp [mergeInto]]
    rw [ih _ m hnd2]
    by_cases hkm : k = m
    · subst hkm
      have hrest : lookupAssoc rest k = none := (lookupAssoc_none rest k).mpr hknotin
      rw [lookup_insertField, hrest, lookupAssoc_cons]
      cases h : lookupAssoc acc k <;> simp [h]
    · have hmk : ¬(k = m) := hkm
      rw [lookup_insertField, lookupAssoc_cons]
      simp [hmk]


theorem nodup_compilePlain (body : List PlainSel) :
    ((compilePlain body).map Prod.fst).Nodup := by
  cases body with
  | nil => simp [compilePlain]
  | cons hd rest =>
    obtain ⟨n, sub⟩ := hd
    rw [show compilePlain (PlainSel.field n sub :: rest) =
        mergeInto [(n, CompiledField.mk true (compilePlain sub))]
          (compilePlain rest) from by simp [compilePlain]]
    exact nodup_mergeInto _ _ (by simp)

theorem nodup_compileSels (env : List (String × List PlainSel))
    (sels : List DocSel) : ((compileSels env sels).map Prod.fst).Nodup := by
  cases sels with
  | nil => simp [compileSels]
  | cons hd rest =>
    cases hd with
    | field n sub =>
      rw [show compileSels env (DocSel.field n sub :: rest) =
          mergeInto [(n, CompiledField.mk false (compileSels env sub))]
            (compileSels env rest) from by simp [compileSels]]
      exact nodup_mergeInto _ _ (by simp)
    | spread f =>
      cases h : lookupAssoc env f with
      | none =>
        rw [show compileSels env (DocSel.spread f :: rest) =
            mergeInto [] (compileSels env rest) from by simp [compileSels, h]]
        exact nodup_mergeInto _ _ (by simp)
      | some body =>
        rw [show compileSels env (DocSel.spread f :: rest) =
            mergeInto (compilePlain body) (compileSels env rest)
          from by simp [compileSels, h]]
        exact nodup_mergeInto _ _ (nodup_compilePlain body)

theorem compilePlain_masked :
    ∀ (body : List PlainSel) (m : String) (node : CompiledField),
      lookupAssoc (compilePlain body) m = some node → node.masked = true := by
  intro body
  induction body with
  | nil => intro m node h; simp [compilePlain, lookupAssoc] at h
  | cons hd rest ih =>
    intro m node h
    obtain ⟨n, sub⟩ := hd
    rw [show compilePlain (PlainSel.field n sub :: rest) =
        mergeInto [(n, CompiledField.mk true (compilePlain sub))]
          (compilePlain rest) from by simp [compilePlain]] at h
    rw [lookup_mergeInto _ _ _ (nodup_compilePlain rest), lookupAssoc_cons] at h
    by_cases hnm : n = m
    · subst hnm
      simp only [beq_self_eq_true, if_true] at h
      cases hrest : lookupAssoc (compilePlain rest) n with
      | none =>
        rw [hrest] at h
        simp only [lookupAssoc, List.find?_nil, Option.map_none'] at h
        cases h
        rfl
      | some y =>
        rw [hrest] at h
        simp only [lookupAssoc, List.find?_nil, Option.map_none'] at h
        cases h
        rw [mergeField_masked, ih n y hrest]
        rfl
    · have hb : (n == m) = false := by simp [hnm]
      rw [hb] at h
      simp only [Bool.false_eq_true, if_false] at h
      have hacc : lookupAssoc ([] : List (String × CompiledField)) m = none := rfl
      rw [hacc] at h
      cases hrest : lookupAssoc (compilePlain rest) m with
      | none => rw [hrest] at h; cases h
      | some y =>
        rw [hrest] at h
        cases h
        exact ih m _ hrest

theorem directNames_field (n : String) (sub : List DocSel) (rest : List DocSel) :
    directNames (DocSel.field n sub :: rest) = n :: directNames rest := by
  simp [directNames]

theorem directNames_spread (f : String) (rest : List DocSel) :
    directNames (DocSel.spread f :: rest) = directNames rest := by
  simp [directNames]

theorem compileSels_mem_direct (env : List (String × List PlainSel)) :
    ∀ (sels : List DocSel) (name : String), name ∈ directNames sels →
      lookupAssoc (compileSels env sels) name ≠ none := by
  intro sels
  induction sels with
  | nil => intro name h; simp [directNames] at h
  | cons hd rest ih =>
    intro name hmem
    cases hd with
    | field n sub =>
      rw [show compileSels env (DocSel.field n sub :: rest) =
          mergeInto [(n, CompiledField.mk false (compileSels env sub))]
            (compileSels env rest) from by simp [compileSels]]
      rw [lookup_mergeInto _ _ _ (nodup_compileSels env rest), lookupAssoc_cons]
      by_cases hnm : n = name
      · subst hnm
        simp only [beq_self_eq_true, if_true]
        cases h2 : lookupAssoc (compileSels env rest) n <;> simp [h2]
      · have hb : (n == name) = false := by simp [hnm]
        rw [hb]
        simp only [Bool.false_eq_true, if_false]
        rw [directNames_field, List.mem_cons] at hmem
        rcases hmem with rfl | hrest
        · exact absurd rfl hnm
        · have h2 := ih name hrest
          cases h3 : lookupAssoc (compileSels env rest) name with
          | none => exact absurd h3 h2
          | some y =>
            have hacc : lookupAssoc ([] : List (String × CompiledField)) name = none := rfl
            rw [hacc]
            simp
    | spread f =>
      rw [directNames_spread] at hmem
      have h2 := ih name hmem
      cases h3 : lookupAssoc (compileSels env rest) name with
      | none => exact absurd h3 h2
      | some y =>
        cases henv : lookupAssoc env f with
        | none =>
          rw [show compileSels env (DocSel.spread f :: rest) =
              mergeInto [] (compileSels env rest) from by simp [compileSels, henv]]
          rw [lookup_mergeInto _ _ _ (nodup_compileSels env rest)]
          have hacc : lookupAssoc ([] : List (String × CompiledField)) name = none := rfl
          rw [hacc, h3]
          simp
        | some body =>
          rw [show compileSels env (DocSel.spread f :: rest) =
              mergeInto (compilePlain body) (compileSels env rest)
            from by simp [compileSels, henv]]
          rw [lookup_mergeInto _ _ _ (nodup_compileSels env rest), h3]
          cases hacc : lookupAssoc (compilePlain body) name <;> simp


/-- C6 (spec-modelled): in the compiled selection of a level, a field's
`masked` flag is true iff the field is never directly selected at that
level — merging a direct selection with fragment-spread-only occurrences
of the same field yields `masked:false`, even when the selections are
redundant. -/
theorem claim_c6_masked_iff_not_direct (env : List (String × List PlainSel)) :
    ∀ (sels : List DocSel) (name : String) (node : CompiledField),
      lookupAssoc (compileSels env sels) name = some node →
      (node.masked = true ↔ name ∉ directNames sels) := by
  intro sels
  induction sels with
  | nil => intro name node h; simp [compileSels, lookupAssoc] at h
  | cons hd rest ih =>
    intro name node h
    cases hd with
    | field n sub =>
      rw [show compileSels env (DocSel.field n sub :: rest) =
          mergeInto [(n, CompiledField.mk false (compileSels env sub))]
            (compileSels env rest) from by simp [compileSels]] at h
      rw [lookup_mergeInto _ _ _ (nodup_compileSels env rest),
        lookupAssoc_cons] at h
      by_cases hnm : n = name
      · subst hnm
        simp only [beq_self_eq_true, if_true] at h
        have hdir : n ∈ directNames (DocSel.field n sub :: rest) := by
          rw [directNames_field]; exact List.mem_cons_self n _
        cases hrest : lookupAssoc (compileSels env rest) n with
        | none =>
          rw [hrest] at h
          simp only [lookupAssoc, List.find?_nil, Option.map_none'] at h
          cases h
          simp [CompiledField.masked, hdir]
        | some y =>
          rw [hrest] at h
          simp only [lookupAssoc, List.find?_nil, Option.map_none'] at h
          cases h
          rw [mergeField_masked]
          simp [CompiledField.masked, hdir]
      · have hb : (n == name) = false := by simp [hnm]
        rw [hb] at h
        simp only [Bool.false_eq_true, if_false] at h
        have hacc : lookupAssoc ([] : List (String × CompiledField)) name = none := rfl
        rw [hacc] at h
        cases hrest : lookupAssoc (compileSels env rest) name with
        | none => rw [hrest] at h; cases h
        | some y =>
          rw [hrest] at h
          cases h
          rw [ih name _ hrest, directNames_field, List.mem_cons, not_or]
          constructor
          · intro hnd; exact ⟨fun hh => hnm hh.symm, hnd⟩
          · intro hp; exact hp.2
    | spread f =>
      have hdir : directNames (DocSel.spread f :: rest) = directNames rest :=
        directNames_spread f rest
      cases henv : lookupAssoc env f with
      | none =>
        rw [show compileSels env (DocSel.spread f :: rest) =
            mergeInto [] (compileSels env rest) from by simp [compileSels, henv]] at h
        rw [lookup_mergeInto _ _ _ (nodup_compileSels env rest)] at h
        have hacc : lookupAssoc ([] : List (String × CompiledField)) name = none := rfl
        rw [hacc] at h
        cases hrest : lookupAssoc (compileSels env rest) name with
        | none => rw [hrest] at h; cases h
        | some y =>
          rw [hrest] at h
          cases h
          rw [hdir]
          exact ih name _ hrest
      | some body =>
        rw [show compileSels env (DocSel.spread f :: rest) =
            mergeInto (compilePlain body) (compileSels env rest)
          from by simp [compileSels, henv]] at h
        rw [lookup_mergeInto _ _ _ (nodup_compileSels env rest)] at h
        cases hacc : lookupAssoc (compilePlain body) name with
        | none =>
          rw [hacc] at h
          cases hrest : lookupAssoc (compileSels env rest) name with
          | none => rw [hrest] at h; cases h
          | some y =>
            rw [hrest] at h
            cases h
            rw [hdir]
            exact ih name _ hrest
        | some x =>
          have hx : x.masked = true := compilePlain_masked body name x hacc
          rw [hacc] at h
          cases hrest : lookupAssoc (compileSels env rest) name with
          | none =>
            rw [hrest] at h
            cases h
            have hnd : name ∉ directNames rest := fun hmem =>
              (compileSels_mem_direct env rest name hmem) hrest
            rw [hdir]
            simp [hx, hnd]
          | some y =>
            rw [hrest] at h
            cases h
            rw [mergeField_masked, hx, Bool.true_and, hdir]
            exact ih name _ hrest

theorem claim_c6_witness :
    lookupAssoc
        (compileSels [("A", [PlainSel.field "firstName" []])]
          [DocSel.field "firstName" [], DocSel.spread "A"]) "firstName" =
      some (CompiledField.mk false []) ∧
    ((CompiledField.mk false []).masked = true ↔
      "firstName" ∉ directNames
        [DocSel.field "firstName" [], DocSel.spread "A"]) :=
  ⟨by simp [compileSels, compilePlain, mergeInto, insertField, mergeField,
      lookupAssoc, CompiledField.masked, CompiledField.cfields],
   claim_c6_masked_iff_not_direct [("A", [PlainSel.field "firstName" []])]
     [DocSel.field "firstName" [], DocSel.spread "A"] "firstName"
     (CompiledField.mk false [])
     (by simp [compileSels, compilePlain, mergeInto, insertField, mergeField,
        lookupAssoc, CompiledField.masked, CompiledField.cfields])⟩


theorem good_of_lookup (config : ConfigFile) (hg : goodScalars config)
    (t : String) (spec : ScalarSpec) (hsc : lookupScalar config t = some spec) :
    ∃ f g, spec.marshal = some f ∧ spec.unmarshal = some g ∧
      (∀ v, g (f v) = v) ∧ (∀ v, f (g v) = v) ∧
      (∀ v, (f v).isArr = v.isArr) ∧ (∀ v, (g v).isArr = v.isArr) := by
  unfold lookupScalar lookupAssoc at hsc
  cases hf : config.scalars.find? (fun p => p.1 == t) with
  | none => rw [hf] at hsc; cases hsc
  | some p =>
    rw [hf] at hsc
    simp only [Option.map_some'] at hsc
    injection hsc with h2
    rw [← h2]
    exact hg p (List.mem_of_find?_eq_some hf)

theorem marshalField_scalar_nonarr (config : ConfigFile) (selection : Selection)
    (fieldName t : String) (spec : ScalarSpec) (f : JsValue → JsValue)
    (hsel : lookupSel selection fieldName = some (SelNode.mk (some t) none))
    (hsc : lookupScalar config t = some spec) (hfdef : spec.marshal = some f)
    (w : JsValue) (hw : w.isArr = false) :
    marshalField config selection fieldName w = Except.ok (f w) := by
  cases w with
  | arr xs => simp [JsValue.isArr] at hw
  | null => simp [marshalField, hsel, SelNode.type, SelNode.fields, hsc, hfdef]
  | atom a => simp [marshalField, hsel, SelNode.type, SelNode.fields, hsc, hfdef]
  | obj o => simp [marshalField, hsel, SelNode.type, SelNode.fields, hsc, hfdef]

theorem unmarshalField_scalar_nonarr (config : ConfigFile)
    (selection : Selection) (fieldName t : String) (spec : ScalarSpec)
    (g : JsValue → JsValue)
    (hsel : lookupSel selection fieldName = some (SelNode.mk (some t) none))
    (hsc : lookupScalar config t = some spec)
    (hmar : spec.marshal.isSome = true) (hgdef : spec.unmarshal = some g)
    (w : JsValue) (hw : w.isArr = false) :
    unmarshalField config selection fieldName w = Except.ok (g w) := by
  cases w with
  | arr xs => simp [JsValue.isArr] at hw
  | null => simp [unmarshalField, hsel, SelNode.type, SelNode.fields, hsc, hmar, hgdef]
  | atom a => simp [unmarshalField, hsel, SelNode.type, SelNode.fields, hsc, hmar, hgdef]
  | obj o => simp [unmarshalField, hsel, SelNode.type, SelNode.fields, hsc, hmar, hgdef]

theorem marshal_roundtrip_field (config : ConfigFile) (hg : goodScalars config)
    (selection : Selection) (fieldName : String) (value : JsValue)
    (H : ∀ sel2, compatValue config sel2 value = true →
      ∃ w, marshalSelection config sel2 value = Except.ok w ∧
        unmarshalSelection config sel2 w = Except.ok value)
    (hc : compatField config selection fieldName value = true) :
    ∃ w, marshalField config selection fieldName value = Except.ok w ∧
      unmarshalField config selection fieldName w = Except.ok value := by
  unfold compatField at hc
  cases hsel : lookupSel selection fieldName with
  | none => rw [hsel] at hc; cases hc
  | some entry =>
    rw [hsel] at hc
    obtain ⟨tOpt, fsOpt⟩ := entry
    cases tOpt with
    | none =>
      exact ⟨value, by simp [marshalField, hsel, SelNode.type],
        by simp [unmarshalField, hsel, SelNode.type]⟩
    | some t =>
      cases fsOpt with
      | some sub =>
        obtain ⟨w, hm, hu⟩ := H sub
          (by simpa [SelNode.type, SelNode.fields] using hc)
        exact ⟨w, by simp [marshalField, hsel, SelNode.type, SelNode.fields, hm],
          by simp [unmarshalField, hsel, SelNode.type, SelNode.fields, hu]⟩
      | none =>
        cases hsc : lookupScalar config t with
        | none =>
          exact ⟨value,
            by simp [marshalField, hsel, SelNode.type, SelNode.fields, hsc],
            by simp [unmarshalField, hsel, SelNode.type, SelNode.fields, hsc]⟩
        | some spec =>
          obtain ⟨f, g, hfdef, hgdef, hgf, hfg, hfa, hga⟩ :=
            good_of_lookup config hg t spec hsc
          have hmar : spec.marshal.isSome = true := by rw [hfdef]; rfl
          have key : ∀ v0 : JsValue, v0.isArr = false →
              ∃ w, marshalField config selection fieldName v0 = Except.ok w ∧
                unmarshalField config selection fieldName w = Except.ok v0 := by
            intro v0 h0
            refine ⟨f v0,
              marshalField_scalar_nonarr config selection fieldName t spec f
                hsel hsc hfdef v0 h0, ?_⟩
            rw [unmarshalField_scalar_nonarr config selection fieldName t spec g
              hsel hsc hmar hgdef (f v0) (by rw [hfa]; exact h0), hgf]
          cases value with
          | arr elems =>
            refine ⟨.arr (elems.map f), ?_, ?_⟩
            · simp [marshalField, hsel, SelNode.type, SelNode.fields, hsc, hfdef]
            · simp only [unmarshalField, hsel, SelNode.type, SelNode.fields,
                hsc, hfdef, hgdef, Option.isSome_some, if_true]
              rw [List.map_map]
              have hall : ∀ x ∈ elems, (g ∘ f) x = x := fun x _ => hgf x
              rw [List.map_congr_left hall, List.map_id']
          | null => exact key JsValue.null rfl
          | atom a => exact key (JsValue.atom a) rfl
          | obj o => exact key (JsValue.obj o) rfl


theorem unmarshal_roundtrip_field (config : ConfigFile) (hg : goodScalars config)
    (selection : Selection) (fieldName : String) (value : JsValue)
    (H : ∀ sel2, compatValue config sel2 value = true →
      ∃ w, unmarshalSelection config sel2 value = Except.ok w ∧
        marshalSelection config sel2 w = Except.ok value)
    (hc : compatField config selection fieldName value = true) :
    ∃ w, unmarshalField config selection fieldName value = Except.ok w ∧
      marshalField config selection fieldName w = Except.ok value := by
  unfold compatField at hc
  cases hsel : lookupSel selection fieldName with
  | none => rw [hsel] at hc; cases hc
  | some entry =>
    rw [hsel] at hc
    obtain ⟨tOpt, fsOpt⟩ := entry
    cases tOpt with
    | none =>
      exact ⟨value, by simp [unmarshalField, hsel, SelNode.type],
        by simp [marshalField, hsel, SelNode.type]⟩
    | some t =>
      cases fsOpt with
      | some sub =>
        obtain ⟨w, hu, hm⟩ := H sub
          (by simpa [SelNode.type, SelNode.fields] using hc)
        exact ⟨w, by simp [unmarshalField, hsel, SelNode.type, SelNode.fields, hu],
          by simp [marshalField, hsel, SelNode.type, SelNode.fields, hm]⟩
      | none =>
        cases hsc : lookupScalar config t with
        | none =>
          exact ⟨value,
            by simp [unmarshalField, hsel, SelNode.type, SelNode.fields, hsc],
            by simp [marshalField, hsel, SelNode.type, SelNode.fields, hsc]⟩
        | some spec =>
          obtain ⟨f, g, hfdef, hgdef, hgf, hfg, hfa, hga⟩ :=
            good_of_lookup config hg t spec hsc
          have hmar : spec.marshal.isSome = true := by rw [hfdef]; rfl
          have key : ∀ v0 : JsValue, v0.isArr = false →
              ∃ w, unmarshalField config selection fieldName v0 = Except.ok w ∧
                marshalField config selection fieldName w = Except.ok v0 := by
            intro v0 h0
            refine ⟨g v0,
              unmarshalField_scalar_nonarr config selection fieldName t spec g
                hsel hsc hmar hgdef v0 h0, ?_⟩
            rw [marshalField_scalar_nonarr config selection fieldName t spec f
              hsel hsc hfdef (g v0) (by rw [hga]; exact h0), hfg]
          cases value with
          | arr elems =>
            refine ⟨.arr (elems.map g), ?_, ?_⟩
            · simp [unmarshalField, hsel, SelNode.type, SelNode.fields, hsc,
                hmar, hgdef]
            · simp only [marshalField, hsel, SelNode.type, SelNode.fields,
                hsc, hfdef]
              rw [List.map_map]
              have hall : ∀ x ∈ elems, (f ∘ g) x = x := fun x _ => hfg x
              rw [List.map_congr_left hall, List.map_id']
          | null => exact key JsValue.null rfl
          | atom a => exact key (JsValue.atom a) rfl
          | obj o => exact key (JsValue.obj o) rfl

theorem marshal_roundtrip_values (config : ConfigFile) (selection : Selection) :
    ∀ (elems : List JsValue),
      (∀ v ∈ elems, ∀ sel2, compatValue config sel2 v = true →
        ∃ w, marshalSelection config sel2 v = Except.ok w ∧
          unmarshalSelection config sel2 w = Except.ok v) →
      compatList config selection elems = true →
      ∃ ws, marshalValues config selection elems = Except.ok ws ∧
        unmarshalValues config selection ws = Except.ok elems := by
  intro elems
  induction elems with
  | nil =>
    intro _ _
    exact ⟨[], by simp [marshalValues], by simp [unmarshalValues]⟩
  | cons v rest ih =>
    intro H hc
    simp only [compatList, Bool.and_eq_true] at hc
    obtain ⟨hcv, hcrest⟩ := hc
    obtain ⟨w, hm, hu⟩ := H v (List.mem_cons_self v rest) selection hcv
    obtain ⟨ws, hms, hus⟩ := ih (fun x hx => H x (List.mem_cons_of_mem _ hx)) hcrest
    refine ⟨w :: ws, ?_, ?_⟩
    · simp [marshalValues, hm, hms, except_bind_ok]
    · simp [unmarshalValues, hu, hus, except_bind_ok]

theorem unmarshal_roundtrip_values (config : ConfigFile) (selection : Selection) :
    ∀ (elems : List JsValue),
      (∀ v ∈ elems, ∀ sel2, compatValue config sel2 v = true →
        ∃ w, unmarshalSelection config sel2 v = Except.ok w ∧
          marshalSelection config sel2 w = Except.ok v) →
      compatList config selection elems = true →
      ∃ ws, unmarshalValues config selection elems = Except.ok ws ∧
        marshalValues config selection ws = Except.ok elems := by
  intro elems
  induction elems with
  | nil =>
    intro _ _
    exact ⟨[], by simp [unmarshalValues], by simp [marshalValues]⟩
  | cons v rest ih =>
    intro H hc
    simp only [compatList, Bool.and_eq_true] at hc
    obtain ⟨hcv, hcrest⟩ := hc
    obtain ⟨w, hu, hm⟩ := H v (List.mem_cons_self v rest) selection hcv
    obtain ⟨ws, hus, hms⟩ := ih (fun x hx => H x (List.mem_cons_of_mem _ hx)) hcrest
    refine ⟨w :: ws, ?_, ?_⟩
    · simp [unmarshalValues, hu, hus, except_bind_ok]
    · simp [marshalValues, hm, hms, except_bind_ok]

theorem marshal_roundtrip_fields (config : ConfigFile) (hg : goodScalars config)
    (selection : Selection) :
    ∀ (fs : List (String × JsValue)),
      (∀ p ∈ fs, ∀ sel2, compatValue config sel2 p.2 = true →
        ∃ w, marshalSelection config sel2 p.2 = Except.ok w ∧
          unmarshalSelection config sel2 w = Except.ok p.2) →
      compatFields config selection fs = true →
      ∃ gs, marshalFields config selection fs = Except.ok gs ∧
        unmarshalFields config selection gs = Except.ok fs := by
  intro fs
  induction fs with
  | nil =>
    intro _ _
    exact ⟨[], by simp [marshalFields], by simp [unmarshalFields]⟩
  | cons p rest ih =>
    intro H hc
    obtain ⟨fieldName, value⟩ := p
    simp only [compatFields, Bool.and_eq_true] at hc
    obtain ⟨hcf, hcrest⟩ := hc
    obtain ⟨w, hmf, huf⟩ := marshal_roundtrip_field config hg selection
      fieldName value
      (fun sel2 hcv => H (fieldName, value) (List.mem_cons_self _ _) sel2 hcv) hcf
    obtain ⟨gs, hms, hus⟩ := ih (fun q hq => H q (List.mem_cons_of_mem _ hq)) hcrest
    refine ⟨(fieldName, w) :: gs, ?_, ?_⟩
    · simp [marshalFields, hmf, hms, except_bind_ok]
    · simp [unmarshalFields, huf, hus, except_bind_ok]

theorem unmarshal_roundtrip_fields (config : ConfigFile) (hg : goodScalars config)
    (selection : Selection) :
    ∀ (fs : List (String × JsValue)),
      (∀ p ∈ fs, ∀ sel2, compatValue config sel2 p.2 = true →
        ∃ w, unmarshalSelection config sel2 p.2 = Except.ok w ∧
          marshalSelection config sel2 w = Except.ok p.2) →
      compatFields config selection fs = true →
      ∃ gs, unmarshalFields config selection fs = Except.ok gs ∧
        marshalFields config selection gs = Except.ok fs := by
  intro fs
  induction fs with
  | nil =>
    intro _ _
    exact ⟨[], by simp [unmarshalFields], by simp [marshalFields]⟩
  | cons p rest ih =>
    intro H hc
    obtain ⟨fieldName, value⟩ := p
    simp only [compatFields, Bool.and_eq_true] at hc
    obtain ⟨hcf, hcrest⟩ := hc
    obtain ⟨w, huf, hmf⟩ := unmarshal_roundtrip_field config hg selection
      fieldName value
      (fun sel2 hcv => H (fieldName, value) (List.mem_cons_self _ _) sel2 hcv) hcf
    obtain ⟨gs, hus, hms⟩ := ih (fun q hq => H q (List.mem_cons_of_mem _ hq)) hcrest
    refine ⟨(fieldName, w) :: gs, ?_, ?_⟩
    · simp [unmarshalFields, huf, hus, except_bind_ok]
    · simp [marshalFields, hmf, hms, except_bind_ok]


theorem marshal_roundtrip_value (config : ConfigFile) (hg : goodScalars config) :
    ∀ (n : Nat) (v : JsValue), sizeOf v ≤ n → ∀ (selection : Selection),
      compatValue config selection v = true →
      ∃ w, marshalSelection config selection v = Except.ok w ∧
        unmarshalSelection config selection w = Except.ok v := by
  intro n
  induction n using Nat.strong_induction_on with
  | _ n IH =>
    intro v hsize selection hc
    cases v with
    | null =>
      exact ⟨.null, by simp [marshalSelection], by simp [unmarshalSelection]⟩
    | atom s => simp [compatValue] at hc
    | arr elems =>
      have Helem : ∀ x ∈ elems, ∀ sel2, compatValue config sel2 x = true →
          ∃ w, marshalSelection config sel2 x = Except.ok w ∧
            unmarshalSelection config sel2 w = Except.ok x := by
        intro x hx sel2 hcx
        have h1 : sizeOf x < sizeOf (JsValue.arr elems) := by
          have := List.sizeOf_lt_of_mem hx
          simp only [JsValue.arr.sizeOf_spec]
          omega
        exact IH (sizeOf x) (Nat.lt_of_lt_of_le h1 hsize) x (Nat.le_refl _) sel2 hcx
      obtain ⟨ws, hm, hu⟩ := marshal_roundtrip_values config selection elems
        Helem (by simpa [compatValue] using hc)
      exact ⟨.arr ws, by simp [marshalSelection, hm, except_map_ok],
        by simp [unmarshalSelection, hu, except_map_ok]⟩
    | obj fs =>
      have Hfld : ∀ p ∈ fs, ∀ sel2, compatValue config sel2 p.2 = true →
          ∃ w, marshalSelection config sel2 p.2 = Except.ok w ∧
            unmarshalSelection config sel2 w = Except.ok p.2 := by
        intro p hp sel2 hcp
        have h1 : sizeOf p.2 < sizeOf (JsValue.obj fs) := by
          have h2 := List.sizeOf_lt_of_mem hp
          obtain ⟨a, b⟩ := p
          simp only [JsValue.obj.sizeOf_spec]
          simp only [Prod.mk.sizeOf_spec] at h2
          omega
        exact IH (sizeOf p.2) (Nat.lt_of_lt_of_le h1 hsize) p.2 (Nat.le_refl _)
          sel2 hcp
      obtain ⟨gs, hm, hu⟩ := marshal_roundtrip_fields config hg selection fs
        Hfld (by simpa [compatValue] using hc)
      exact ⟨.obj gs, by simp [marshalSelection, hm, except_map_ok],
        by simp [unmarshalSelection, hu, except_map_ok]⟩

theorem unmarshal_roundtrip_value (config : ConfigFile) (hg : goodScalars config) :
    ∀ (n : Nat) (v : JsValue), sizeOf v ≤ n → ∀ (selection : Selection),
      compatValue config selection v = true →
      ∃ w, unmarshalSelection config selection v = Except.ok w ∧
        marshalSelection config selection w = Except.ok v := by
  intro n
  induction n using Nat.strong_induction_on with
  | _ n IH =>
    intro v hsize selection hc
    cases v with
    | null =>
      exact ⟨.null, by simp [unmarshalSelection], by simp [marshalSelection]⟩
    | atom s => simp [compatValue] at hc
    | arr elems =>
      have Helem : ∀ x ∈ elems, ∀ sel2, compatValue config sel2 x = true →
          ∃ w, unmarshalSelection config sel2 x = Except.ok w ∧
            marshalSelection config sel2 w = Except.ok x := by
        intro x hx sel2 hcx
        have h1 : sizeOf x < sizeOf (JsValue.arr elems) := by
          have := List.sizeOf_lt_of_mem hx
          simp only [JsValue.arr.sizeOf_spec]
          omega
        exact IH (sizeOf x) (Nat.lt_of_lt_of_le h1 hsize) x (Nat.le_refl _) sel2 hcx
      obtain ⟨ws, hu, hm⟩ := unmarshal_roundtrip_values config selection elems
        Helem (by simpa [compatValue] using hc)
      exact ⟨.arr ws, by simp [unmarshalSelection, hu, except_map_ok],
        by simp [marshalSelection, hm, except_map_ok]⟩
    | obj fs =>
      have Hfld : ∀ p ∈ fs, ∀ sel2, compatValue config sel2 p.2 = true →
          ∃ w, unmarshalSelection config sel2 p.2 = Except.ok w ∧
            marshalSelection config sel2 w = Except.ok p.2 := by
        intro p hp sel2 hcp
        have h1 : sizeOf p.2 < sizeOf (JsValue.obj fs) := by
          have h2 := List.sizeOf_lt_of_mem hp
          obtain ⟨a, b⟩ := p
          simp only [JsValue.obj.sizeOf_spec]
          simp only [Prod.mk.sizeOf_spec] at h2
          omega
        exact IH (sizeOf p.2) (Nat.lt_of_lt_of_le h1 hsize) p.2 (Nat.le_refl _)
          sel2 hcp
      obtain ⟨gs, hu, hm⟩ := unmarshal_roundtrip_fields config hg selection fs
        Hfld (by simpa [compatValue] using hc)
      exact ⟨.obj gs, by simp [unmarshalSelection, hu, except_map_ok],
        by simp [marshalSelection, hm, except_map_ok]⟩


/-- C9 (amended): marshal-then-unmarshal and unmarshal-then-marshal both
return the original value, for every configuration whose custom scalars
carry mutually inverse conversion functions that preserve
(non-)arrayness, and every value that is null/array/object at each
position where a selection applies (a primitive at such a position is
rebuilt as `{}`, see the counterexample) with every object field present
in the selection in force. -/
theorem claim_c9_roundtrip (config : ConfigFile) (selection : Selection)
    (v : JsValue) (hg : goodScalars config)
    (hc : compatValue config selection v = true) :
    (marshalSelection config selection v).bind
        (unmarshalSelection config selection) = Except.ok v ∧
    (unmarshalSelection config selection v).bind
        (marshalSelection config selection) = Except.ok v := by
  obtain ⟨w1, hm1, hu1⟩ := marshal_roundtrip_value config hg (sizeOf v) v
    (Nat.le_refl _) selection hc
  obtain ⟨w2, hu2, hm2⟩ := unmarshal_roundtrip_value config hg (sizeOf v) v
    (Nat.le_refl _) selection hc
  constructor
  · rw [hm1]; simpa [Except.bind] using hu1
  · rw [hu2]; simpa [Except.bind] using hm2

/-- C9 counterexample: the round-trip claim as stated is false — with an
empty scalar configuration (so the inverse-functions hypothesis is
vacuous) and a data value whose single field appears in the Selection,
marshal-then-unmarshal rebuilds the primitive under the sub-selection as
`{}` (JavaScript's `Object.entries` on a primitive), so the result
differs from the original. -/
theorem claim_c9_counterexample :
    (marshalSelection ⟨[]⟩ [("f", SelNode.mk (some "T") (some []))]
        (JsValue.obj [("f", JsValue.atom "42")])).bind
      (unmarshalSelection ⟨[]⟩ [("f", SelNode.mk (some "T") (some []))]) =
      Except.ok (JsValue.obj [("f", JsValue.obj [])]) ∧
    JsValue.obj [("f", JsValue.obj [])] ≠
      JsValue.obj [("f", JsValue.atom "42")] := by
  constructor
  · simp [marshalSelection, marshalFields, marshalField, unmarshalSelection,
      unmarshalFields, unmarshalField, lookupSel, lookupAssoc, SelNode.type,
      SelNode.fields, Except.bind, except_map_ok, except_bind_ok]
  · simp

theorem claim_c9_witness :
    (marshalSelection ⟨[("DT", ⟨some id, some id⟩)]⟩
        [("x", SelNode.mk (some "DT") none)]
        (JsValue.obj [("x", JsValue.atom "5")])).bind
      (unmarshalSelection ⟨[("DT", ⟨some id, some id⟩)]⟩
        [("x", SelNode.mk (some "DT") none)]) =
      Except.ok (JsValue.obj [("x", JsValue.atom "5")]) ∧
    (unmarshalSelection ⟨[("DT", ⟨some id, some id⟩)]⟩
        [("x", SelNode.mk (some "DT") none)]
        (JsValue.obj [("x", JsValue.atom "5")])).bind
      (marshalSelection ⟨[("DT", ⟨some id, some id⟩)]⟩
        [("x", SelNode.mk (some "DT") none)]) =
      Except.ok (JsValue.obj [("x", JsValue.atom "5")]) :=
  claim_c9_roundtrip ⟨[("DT", ⟨some id, some id⟩)]⟩
    [("x", SelNode.mk (some "DT") none)]
    (JsValue.obj [("x", JsValue.atom "5")])
    (by
      intro p hp
      rw [List.mem_singleton] at hp
      subst hp
      exact ⟨id, id, rfl, rfl, fun v => rfl, fun v => rfl, fun v => rfl,
        fun v => rfl⟩)
    (by simp [compatValue, compatFields, compatField, lookupSel, lookupAssoc,
      SelNode.type, SelNode.fields])

end Houdini
